import Mathlib

/-!
Verification of the speculum mirror core (Terraform provider network mirror).

This development shallowly embeds the mirror orchestration layer:
`internal/mirror/mirror.go` (Mirror.GetIndex / GetVersion / GetArchive,
buildVersionFromCache, rewriteArchiveURLs, URL/filename builders),
`internal/mirror/upstream.go` (FetchVersion, doRequestWithRetry,
exponentialBackoff, checkStatusCode), the coalescing discovery cache
(DiscoverServices, isValidProvidersURL), and the storage backends
(`internal/storage/filesystem.go`, `internal/storage/memory.go`).

HTTP transport, JSON byte-level (de)serialization, the filesystem and the
clock are modelled at the value level: fetch results, parsed documents and
storage contents are passed explicitly; every branch of the embedded Go
control flow is kept.
-/

namespace Speculum

/-- Model of Go `strings.TrimSuffix`: removes `suffix` once if `s` ends with it. -/
def trimSuffix (s suffix : String) : String :=
  if suffix.toList.isSuffixOf s.toList then
    (s.toList.take (s.toList.length - suffix.toList.length)).asString
  else s

/-- Split a character list at every occurrence of `c`
(model of Go `strings.Split` with a one-character separator). -/
def splitOnChar (c : Char) : List Char → List (List Char)
  | [] => [[]]
  | x :: xs =>
    if x = c then [] :: splitOnChar c xs
    else
      match splitOnChar c xs with
      | r :: rs => (x :: r) :: rs
      | [] => [[x]]

/-- Split a character list at the first occurrence of `c`:
returns the part before and, when `c` occurs, the part after it. -/
def splitOnceAux (c : Char) : List Char → List Char × Option (List Char)
  | [] => ([], none)
  | x :: xs =>
    if x = c then ([], some xs)
    else
      let r := splitOnceAux c xs
      (x :: r.1, r.2)

/-- Split a string at the first occurrence of `c` (model of Go `strings.Cut`). -/
def splitOnce (s : String) (c : Char) : String × Option String :=
  let r := splitOnceAux c s.toList
  (r.1.asString, r.2.map List.asString)

/-- The part of `s` after the last occurrence of `c`; `s` itself if `c` is absent.
Used to strip userinfo (`user@host`) from a URL authority. -/
def afterLast (c : Char) (s : String) : String :=
  match (s.toList.reverse.takeWhile (· ≠ c)).reverse with
  | l => l.asString

/-- Scheme scanner, model of Go `net/url.getScheme`:
returns `none` on the `":scheme-less"` parse error, `some none` when the
string has no scheme (it is all opaque/path), and `some (some (scheme, rest))`
when a `scheme:` was found (scheme lowercased). -/
def getSchemeAux (acc : List Char) : List Char → Option (Option (String × List Char))
  | [] => some none
  | c :: cs =>
    if c.isAlpha then getSchemeAux (acc ++ [c]) cs
    else if c.isDigit ∨ c = '+' ∨ c = '-' ∨ c = '.' then
      if acc = [] then some none else getSchemeAux (acc ++ [c]) cs
    else if c = ':' then
      if acc = [] then none
      else some (some ((acc.map Char.toLower).asString, cs))
    else some none

/-- Result of the restricted Go `net/url.Parse` model: scheme, host and path. -/
structure GoURL where
  scheme : String
  host : String
  path : String
deriving DecidableEq, Repr

/-- Model of Go `net/url.Parse` restricted to the parts the mirror consults:
fragment and query are stripped, the scheme is recognized as in Go's
`getScheme`, a `//authority` section yields the host (userinfo removed) and
the remainder is the path.  `none` models Go's "missing protocol scheme"
parse error.  Percent-escape and host-character validation errors of the
real parser are not modelled; no input the mirror validates reaches them
after its own control-character checks. -/
def parseGoURL (rawURL : String) : Option GoURL :=
  let beforeFrag := (splitOnce rawURL '#').1
  match getSchemeAux [] beforeFrag.toList with
  | none => none
  | some schemeSplit =>
    let scheme := (schemeSplit.map Prod.fst).getD ""
    let rest := ((schemeSplit.map Prod.snd).getD beforeFrag.toList).asString
    let restNoQuery := (splitOnce rest '?').1
    if restNoQuery.toList.take 2 = ['/', '/'] then
      let afterSlashes := (restNoQuery.toList.drop 2).asString
      let split := splitOnce afterSlashes '/'
      let host := afterLast '@' split.1
      some ⟨scheme, host, match split.2 with | some p => "/" ++ p | none => ""⟩
    else
      some ⟨scheme, "", restNoQuery⟩

/-- Model of Go `path.Base`. -/
def pathBase (p : String) : String :=
  if p = "" then "."
  else
    let trimmed := (p.toList.reverse.dropWhile (· = '/')).reverse
    let base := (trimmed.reverse.takeWhile (· ≠ '/')).reverse
    if base = [] then "/" else base.asString

/-! ## Data model (`internal/mirror/` types, unnamed models file) -/

/-- `Archive` from the mirror package: a downloadable provider package.
`hashes = none` models the Go `nil` slice, which `omitempty` drops from the
serialized document. -/
structure Archive where
  url : String
  hashes : Option (List String)
deriving DecidableEq, Repr

/-- `VersionResponse`: platform key (`os_arch`) to `Archive`.  The Go map is
embedded as an association list whose updates follow Go map semantics. -/
structure VersionResponse where
  archives : List (String × Archive)
deriving DecidableEq, Repr

/-- `IndexResponse`: the mirror-protocol index document.  The Go
`map[string]interface{}` of version presence markers is embedded as the list
of its keys. -/
structure IndexResponse where
  versions : List String
deriving DecidableEq, Repr

/-- `RegistryPlatform` from the registry `/versions` API. -/
structure RegistryPlatform where
  os : String
  arch : String
deriving DecidableEq, Repr

/-- `RegistryVersion`: one version with its platform list. -/
structure RegistryVersion where
  version : String
  platforms : List RegistryPlatform
deriving DecidableEq, Repr

/-- `RegistryVersionsResponse`: the full registry `/versions` response
(the cached bulk listing). -/
structure RegistryVersionsResponse where
  versions : List RegistryVersion
deriving DecidableEq, Repr

/-- `DownloadInfo`: registry download metadata (`download_url`, `shasum`). -/
structure DownloadInfo where
  downloadURL : String
  shasum : String
deriving DecidableEq, Repr

/-- `ServiceDiscovery`: the `.well-known/terraform.json` record kept by the
discovery cache (the `CachedAt` clock field is handled by the episode model
of the cache, not stored here). -/
structure ServiceDiscovery where
  hostname : String
  providersV1 : String
deriving DecidableEq, Repr

/-- Errors of the mirror core.  `notFound` is the distinguished `ErrNotFound`
sentinel; the other constructors model the distinct `fmt.Errorf` failures. -/
inductive MErr
  | notFound
  | unexpectedStatus (code : Nat)
  | transport
  | parseFailed
  | noCachedListing
  | downloadURLFailed (e : MErr)
  | archiveFetchFailed (e : MErr)
  | cacheWriteFailed
deriving DecidableEq, Repr

/-- Go map lookup on the association-list embedding: first binding wins
(keys are kept unique by `goMapInsert`). -/
def lookupAssoc {α : Type} : List (String × α) → String → Option α
  | [], _ => none
  | kv :: rest, k => if kv.1 = k then some kv.2 else lookupAssoc rest k

/-- Go map insertion `m[k] = v` on the association-list embedding: replaces
the binding when the key is present, appends it otherwise. -/
def goMapInsert {α : Type} (l : List (String × α)) (k : String) (v : α) : List (String × α) :=
  if l.any (fun kv => kv.1 = k) then l.map (fun kv => if kv.1 = k then (k, v) else kv)
  else l ++ [(k, v)]

/-! ## UpstreamClient (`internal/mirror/upstream.go`) -/

/-- `checkStatusCode`: `404` becomes the not-found sentinel, anything other
than `200` an unexpected-status error, `200` is fine (`none`). -/
def checkStatusCode (status : Nat) : Option MErr :=
  if status = 404 then some .notFound
  else if status ≠ 200 then some (.unexpectedStatus status)
  else none

/-- Outcome of a single HTTP attempt inside `doRequestWithRetry`:
a transport-level error or a response with a status code. -/
inductive AttemptOutcome
  | netErr
  | status (code : Nat)
deriving DecidableEq, Repr

/-- Result of the retry loop: a response handed back (with its status),
a transport failure after the final attempt, or a context-cancellation
error surfaced from `exponentialBackoff`. -/
inductive RetryResult
  | ok (status : Nat)
  | netErrFinal
  | cancelled
deriving DecidableEq, Repr

/-- Observable trace of one `doRequestWithRetry` call: how many HTTP attempts
were issued, the backoff waits performed (in seconds), and the result. -/
structure RetryTrace where
  attemptsMade : Nat
  backoffs : List Nat
  result : RetryResult
deriving DecidableEq, Repr

/-- The `for attempt := 0; attempt <= maxRetries` loop of
`doRequestWithRetry`.  `attempts i` is the outcome of the i-th HTTP attempt,
`cancelledAt i` whether the caller's context is cancelled during the backoff
that follows attempt `i` (`exponentialBackoff` then returns `ctx.Err()`).
`fuel` is the number of attempts still allowed (`maxRetries + 1 - i`);
a positive remaining fuel after this attempt is exactly Go's
`attempt < maxRetries`.  Backoff after attempt `i` waits `2^i` seconds
(`time.Duration(1<<attempt) * time.Second`). -/
def retryLoop (attempts : Nat → AttemptOutcome) (cancelledAt : Nat → Bool) :
    Nat → Nat → RetryTrace
  | _, 0 => ⟨0, [], .netErrFinal⟩
  | i, fuel + 1 =>
    match attempts i with
    | .netErr =>
      if 0 < fuel then
        if cancelledAt i then ⟨1, [], .cancelled⟩
        else
          let t := retryLoop attempts cancelledAt (i + 1) fuel
          ⟨t.attemptsMade + 1, 2 ^ i :: t.backoffs, t.result⟩
      else ⟨1, [], .netErrFinal⟩
    | .status s =>
      if s < 500 then ⟨1, [], .ok s⟩
      else if 0 < fuel then
        if cancelledAt i then ⟨1, [], .cancelled⟩
        else
          let t := retryLoop attempts cancelledAt (i + 1) fuel
          ⟨t.attemptsMade + 1, 2 ^ i :: t.backoffs, t.result⟩
      else ⟨1, [], .ok s⟩

/-- `doRequestWithRetry`: the retry loop started at attempt 0 with
`maxRetries + 1` attempts allowed in total. -/
def doRequestWithRetry (maxRetries : Nat) (attempts : Nat → AttemptOutcome)
    (cancelledAt : Nat → Bool) : RetryTrace :=
  retryLoop attempts cancelledAt 0 (maxRetries + 1)

/-- Outcome of one `uc.fetch` call (retry loop + body read) as `FetchVersion`
sees it: a transport-level failure, or a status code together with the body,
the body being `some` parsed document or `none` when it does not parse. -/
inductive FetchOutcome
  | transportErr
  | response (status : Nat) (body : Option VersionResponse)

/-- `UpstreamClient.FetchVersion`.  `discovery` is the result of
`getProvidersEndpoint` (service discovery through the cache).  When
discovery succeeds the method returns `ErrNotFound` at once; only on
discovery failure does it fetch the mirror-protocol
`https://{host}/{namespace}/{type}/{version}.json` document.  The second
component lists the URLs actually fetched. -/
def FetchVersion (discovery : Except Unit ServiceDiscovery)
    (fetchFn : String → FetchOutcome) (hn ns pt version : String) :
    Except MErr VersionResponse × List String :=
  match discovery with
  | .ok _ => (.error .notFound, [])
  | .error _ =>
    let url := "https://" ++ hn ++ "/" ++ ns ++ "/" ++ pt ++ "/" ++ version ++ ".json"
    match fetchFn url with
    | .transportErr => (.error .transport, [url])
    | .response status body =>
      match checkStatusCode status with
      | some e => (.error e, [url])
      | none =>
        match body with
        | some resp => (.ok resp, [url])
        | none => (.error .parseFailed, [url])

/-! ## Mirror (`internal/mirror/mirror.go`) -/

/-- `buildPlatformKey`: `fmt.Sprintf("%s_%s", os, arch)`. -/
def buildPlatformKey (os arch : String) : String :=
  os ++ "_" ++ arch

/-- `buildProviderFilename`:
`fmt.Sprintf("terraform-provider-%s_%s_%s_%s.zip", providerType, version, os, arch)`. -/
def buildProviderFilename (providerType version os arch : String) : String :=
  "terraform-provider-" ++ providerType ++ "_" ++ version ++ "_" ++ os ++ "_" ++ arch ++ ".zip"

/-- `Mirror.buildDownloadURL`:
`fmt.Sprintf("%s/download/%s/%s/%s/%s/%s/%s/%s", strings.TrimSuffix(baseURL, "/"), ...)`. -/
def buildDownloadURL (baseURL hn ns pt version os arch filename : String) : String :=
  trimSuffix baseURL "/" ++ "/download/" ++ hn ++ "/" ++ ns ++ "/" ++ pt ++ "/" ++ version
    ++ "/" ++ os ++ "/" ++ arch ++ "/" ++ filename

/-- `parsePlatformKey`: `strings.Split(platform, "_")` must yield exactly two
parts. -/
def parsePlatformKey (platform : String) : Option (String × String) :=
  match (splitOnChar '_' platform.toList).map List.asString with
  | [os, arch] => some (os, arch)
  | _ => none

/-- `Mirror.extractFilename`: last path segment of the parsed URL with the
`archive.zip` placeholder fallback, or last `/`-separated token when URL
parsing fails. -/
def extractFilename (archiveURL : String) : String :=
  match parseGoURL archiveURL with
  | none =>
    match ((splitOnChar '/' archiveURL.toList).map List.asString).getLast? with
    | some last => last
    | none => archiveURL
  | some u =>
    let base := pathBase u.path
    if base = "." ∨ base = "/" ∨ base = "" then "archive.zip" else base

/-- The version-search loop of `buildVersionFromCache`: platforms of the
first entry whose version matches, `[]` when none matches (the Go
`platforms` variable keeps its `nil` zero value). -/
def findPlatforms : List RegistryVersion → String → List RegistryPlatform
  | [], _ => []
  | v :: rest, version =>
    if v.version = version then v.platforms else findPlatforms rest version

/-- The archive entry `buildVersionFromCache` synthesizes for one platform:
key `os_arch`, the mirror's own download URL over the canonical filename,
and no hashes. -/
def mkCacheArchive (baseURL hn ns pt version : String) (p : RegistryPlatform) :
    String × Archive :=
  (buildPlatformKey p.os p.arch,
   ⟨buildDownloadURL baseURL hn ns pt version p.os p.arch
      (buildProviderFilename pt version p.os p.arch), none⟩)

/-- The archive map built by `buildVersionFromCache`'s platform loop
(`response.Archives[platformKey] = Archive{...}` over an empty map). -/
def buildArchives (baseURL hn ns pt version : String)
    (platforms : List RegistryPlatform) : List (String × Archive) :=
  platforms.foldl
    (fun acc p =>
      let kv := mkCacheArchive baseURL hn ns pt version p
      goMapInsert acc kv.1 kv.2)
    []

/-- The slice of storage the Mirror metadata paths touch for one provider
coordinate: the index document, the per-version documents (keyed by version)
and the cached bulk versions response.  `none`/missing key is the storage
NotFound sentinel. -/
structure MetaStore where
  indexDoc : Option IndexResponse
  versionDocs : List (String × VersionResponse)
  listing : Option RegistryVersionsResponse
deriving Repr

/-- Store a version document (`storage.PutVersion` at the value level). -/
def putVersionDoc (st : MetaStore) (version : String) (doc : VersionResponse) : MetaStore :=
  { st with versionDocs := goMapInsert st.versionDocs version doc }

/-- `Mirror.buildVersionFromCache`: read the cached bulk listing (absence is
the "no cached versions response available" error), find the requested
version's platforms (empty means `ErrNotFound`), synthesize the archive map
without hashes, cache it best-effort (`putOk` is whether `PutVersion`
succeeds; its failure is only logged) and return it with the resulting
store. -/
def buildVersionFromCache (baseURL : String) (st : MetaStore) (putOk : Bool)
    (hn ns pt version : String) : Except MErr VersionResponse × MetaStore :=
  match st.listing with
  | none => (.error .noCachedListing, st)
  | some listing =>
    let platforms := findPlatforms listing.versions version
    if platforms = [] then (.error .notFound, st)
    else
      let doc : VersionResponse := ⟨buildArchives baseURL hn ns pt version platforms⟩
      (.ok doc, if putOk then putVersionDoc st version doc else st)

/-- `Mirror.rewriteArchiveURLs`: for each entry with a non-empty URL whose
platform key parses as `os_arch`, replace the URL with the mirror's own
download URL over the filename extracted from the upstream URL, keeping the
upstream hashes; malformed platform keys are skipped (entry kept as-is).
The Go function's only other failure modes are the unmarshal/marshal of the
JSON bytes, which cannot fail at this value-level embedding. -/
def rewriteArchiveURLs (baseURL hn ns pt version : String)
    (resp : VersionResponse) : VersionResponse :=
  ⟨resp.archives.map fun kv =>
    if kv.2.url ≠ "" then
      match parsePlatformKey kv.1 with
      | none => kv
      | some osArch =>
        (kv.1,
         ⟨buildDownloadURL baseURL hn ns pt version osArch.1 osArch.2
            (extractFilename kv.2.url), kv.2.hashes⟩)
    else kv⟩

/-- `Mirror.GetIndex`.  `fetchIndex` is the `UpstreamClient.FetchIndex`
outcome (index response plus optional bulk listing); `putIndexOk` and
`putListingOk` are whether the two best-effort cache writes succeed — their
failure is logged and never surfaced. -/
def GetIndex (st : MetaStore)
    (fetchIndex : Except MErr (IndexResponse × Option RegistryVersionsResponse))
    (putIndexOk putListingOk : Bool) : Except MErr IndexResponse × MetaStore :=
  match st.indexDoc with
  | some cached => (.ok cached, st)
  | none =>
    match fetchIndex with
    | .error e => (.error e, st)
    | .ok fetched =>
      let st1 := if putIndexOk then { st with indexDoc := some fetched.1 } else st
      let st2 :=
        match fetched.2 with
        | some listing => if putListingOk then { st1 with listing := some listing } else st1
        | none => st1
      (.ok fetched.1, st2)

/-- `Mirror.GetVersion`.  Serves the cached document verbatim on a hit; on a
miss dispatches on the `UpstreamClient.FetchVersion` outcome: `ErrNotFound`
triggers `buildVersionFromCache`, any other error is surfaced, and a fetched
document is URL-rewritten, cached best-effort (`putOk`) and returned. -/
def GetVersion (baseURL : String) (st : MetaStore)
    (fetchVersion : Except MErr VersionResponse) (putOk : Bool)
    (hn ns pt version : String) : Except MErr VersionResponse × MetaStore :=
  match lookupAssoc st.versionDocs version with
  | some cached => (.ok cached, st)
  | none =>
    match fetchVersion with
    | .error e =>
      if e = .notFound then buildVersionFromCache baseURL st putOk hn ns pt version
      else (.error e, st)
    | .ok resp =>
      let rewritten := rewriteArchiveURLs baseURL hn ns pt version resp
      (.ok rewritten, if putOk then putVersionDoc st version rewritten else st)

/-- `Mirror.GetArchive`.  The archive store maps storage paths to cached
bytes.  On a hit the cached bytes are returned with no upstream call; on a
miss the download URL is resolved (`FetchDownloadURL`), the archive fetched
(`FetchArchive`), persisted — a persistence failure (`putOk = false`) is
fatal here — and re-read from storage.  The `Nat` counts upstream calls
issued (download-URL resolution and archive fetch). -/
def GetArchive (store : String → Option String)
    (fetchDownloadURL : Except MErr DownloadInfo)
    (fetchArchive : String → Except MErr String)
    (putOk : Bool) (archivePath : String) :
    Except MErr String × (String → Option String) × Nat :=
  match store archivePath with
  | some cached => (.ok cached, store, 0)
  | none =>
    match fetchDownloadURL with
    | .error e => (.error (.downloadURLFailed e), store, 1)
    | .ok info =>
      match fetchArchive info.downloadURL with
      | .error e => (.error (.archiveFetchFailed e), store, 2)
      | .ok bytes =>
        if putOk then
          let newStore := fun p => if p = archivePath then some bytes else store p
          match newStore archivePath with
          | some b => (.ok b, newStore, 2)
          | none => (.error .notFound, newStore, 2)
        else (.error .cacheWriteFailed, store, 2)

/-! ## DiscoveryCache (coalescing discovery cache of the mirror package) -/

/-- The character rejection of `isValidProvidersURL`'s scan loop: control
characters (below 32 or DEL) and unencoded spaces. -/
def isBadChar (ch : Char) : Bool :=
  ch.toNat < 32 || ch.toNat == 127 || ch == ' '

/-- `isValidProvidersURL`: non-empty, free of control characters (below 32
or DEL) and spaces, and — when it parses with a scheme — the scheme must be
`http`/`https` and the host non-empty.  Parse failure rejects. -/
def isValidProvidersURL (urlStr : String) : Bool :=
  if urlStr = "" then false
  else if urlStr.toList.any isBadChar then false
  else
    match parseGoURL urlStr with
    | none => false
    | some u =>
      if u.scheme ≠ "" then
        if u.host = "" then false
        else if u.scheme ≠ "http" ∧ u.scheme ≠ "https" then false
        else true
      else true

/-- Discovery-cache errors: upstream fetch failure or the invalid
`providers.v1` validation error. -/
inductive DiscErr
  | fetchFailed
  | invalidProvidersURL (url : String)
deriving DecidableEq, Repr

/-- The tail of `DiscoverServices` after `fetchFromUpstream` returns, run
under the lock: a fetch error is returned uncached; a fetched document whose
`providers.v1` fails `isValidProvidersURL` is an error for this call only
and is not cached; a valid one is cached and returned.  The cache is the
hostname-keyed discovery table; `fetched` is `none` on fetch error, else the
fetched `providers.v1` value. -/
def finishDiscovery (cache : List (String × ServiceDiscovery)) (hostname : String)
    (fetched : Option String) :
    Except DiscErr ServiceDiscovery × List (String × ServiceDiscovery) :=
  match fetched with
  | none => (.error .fetchFailed, cache)
  | some pv1 =>
    if isValidProvidersURL pv1 then
      let entry : ServiceDiscovery := ⟨hostname, pv1⟩
      (.ok entry, goMapInsert cache hostname entry)
    else (.error (.invalidProvidersURL pv1), cache)

/-! ### Coalescing transition system

`DiscoverServices` for one hostname, modelled as an interleaving of the
lock-protected critical sections of the Go code.  Threads run the method's
control flow; each step below is one lock-held region:

* `enter`: the initial cache/in-flight check — a valid cached entry is
  returned, an in-flight fetch sends the caller into the `cond.Wait` loop,
  otherwise the caller marks the hostname in-flight and fetches;
* `wake`: one wake-up of the `cond.Wait` loop — the cache is re-checked
  first (the coalesced result is returned if present), then the loop
  condition: still in-flight keeps waiting, otherwise the caller takes over
  the fetch itself;
* `complete`: the fetching thread re-acquires the lock, clears the
  in-flight mark, caches the entry when the fetch succeeded and validated
  (`outcome = some e`; `none` covers both fetch errors and validation
  failures, which are not cached) and broadcasts.

The episode model fixes the clock: the claims quantify over one
coalescing episode starting with the entry absent or expired, during which
a freshly cached entry stays within its TTL. -/

/-- Where one caller of `DiscoverServices` stands. -/
inductive Phase
  | start
  | waiting
  | fetching
  | done (r : Option ServiceDiscovery)
deriving DecidableEq, Repr

/-- Whether a phase is a completed call. -/
def Phase.isDone : Phase → Bool
  | .done _ => true
  | _ => false

/-- Shared state of one coalescing episode: the cache entry for the
hostname, its in-flight flag, each caller's phase, and how many upstream
discovery fetches have been started. -/
structure DState where
  cache : Option ServiceDiscovery
  inFlight : Bool
  phases : List Phase
  fetchCount : Nat
deriving DecidableEq, Repr

/-- One interleaving step: which caller acts, and for `complete` the fetch
outcome (`some e` success with a valid document, `none` failure). -/
inductive DStep
  | enter (i : Nat)
  | wake (i : Nat)
  | complete (i : Nat) (outcome : Option ServiceDiscovery)

/-- A step completing a fetch reports success (the failure paths leave the
cache empty and send waiters back upstream; the claim's scenario is the
successful winner). -/
def stepOK : DStep → Bool
  | .complete _ outcome => outcome.isSome
  | _ => true

/-- The transition function: `none` when the step's thread is not in the
phase that enables it. -/
def dstep (s : DState) : DStep → Option DState
  | .enter i =>
    match s.phases[i]? with
    | some .start =>
      match s.cache with
      | some e => some { s with phases := s.phases.set i (.done (some e)) }
      | none =>
        if s.inFlight then some { s with phases := s.phases.set i .waiting }
        else some { s with inFlight := true, phases := s.phases.set i .fetching,
                           fetchCount := s.fetchCount + 1 }
    | _ => none
  | .wake i =>
    match s.phases[i]? with
    | some .waiting =>
      match s.cache with
      | some e => some { s with phases := s.phases.set i (.done (some e)) }
      | none =>
        if s.inFlight then some s
        else some { s with inFlight := true, phases := s.phases.set i .fetching,
                           fetchCount := s.fetchCount + 1 }
    | _ => none
  | .complete i outcome =>
    match s.phases[i]? with
    | some .fetching =>
      match outcome with
      | some e => some { cache := some e, inFlight := false,
                         phases := s.phases.set i (.done (some e)),
                         fetchCount := s.fetchCount }
      | none => some { s with inFlight := false, phases := s.phases.set i (.done none) }
    | _ => none

/-- Run a list of interleaving steps. -/
def drun (s : DState) : List DStep → Option DState
  | [] => some s
  | step :: rest =>
    match dstep s step with
    | some next => drun next rest
    | none => none

/-- Initial episode state: empty (or expired, hence ignored) cache entry,
no fetch in flight, `n` callers about to enter. -/
def dinit (n : Nat) : DState :=
  ⟨none, false, List.replicate n .start, 0⟩

/-! ## Storage (`internal/storage/filesystem.go`, `internal/storage/memory.go`) -/

/-- `validateProviderPath`: empty components are rejected, then any
component containing `/` or `\` is rejected.  `some msg` is the error. -/
def validateProviderPath (hn ns pt : String) : Option String :=
  if hn = "" ∨ ns = "" ∨ pt = "" then
    some "hostname, namespace, and providerType cannot be empty"
  else if [hn, ns, pt].any (fun c => c.toList.contains '/' || c.toList.contains '\\') then
    some "invalid character in path component"
  else none

/-- `FilesystemStorage.indexPath` (filepath.Join over `/`). -/
def indexPath (cacheDir hn ns pt : String) : String :=
  cacheDir ++ "/" ++ hn ++ "/" ++ ns ++ "/" ++ pt ++ "/index.json"

/-- `FilesystemStorage.versionPath`. -/
def versionPath (cacheDir hn ns pt version : String) : String :=
  cacheDir ++ "/" ++ hn ++ "/" ++ ns ++ "/" ++ pt ++ "/" ++ version ++ ".json"

/-- `FilesystemStorage.versionsResponsePath` (internal cache namespace). -/
def versionsResponsePath (cacheDir hn ns pt : String) : String :=
  cacheDir ++ "/.speculum-internal/" ++ hn ++ "/" ++ ns ++ "/" ++ pt ++ "/versions.json"

/-- The write action of a filesystem-storage put at the path level: the
path written on success, the validation error otherwise.  No write happens
on a validation error. -/
def fsPutIndex (cacheDir hn ns pt : String) : Except String String :=
  match validateProviderPath hn ns pt with
  | some e => .error e
  | none => .ok (indexPath cacheDir hn ns pt)

/-- `FilesystemStorage.GetIndex` at the path level: the path read on
success. -/
def fsGetIndex (cacheDir hn ns pt : String) : Except String String :=
  match validateProviderPath hn ns pt with
  | some e => .error e
  | none => .ok (indexPath cacheDir hn ns pt)

/-- `FilesystemStorage.PutVersion`: validation plus the empty-version
check. -/
def fsPutVersion (cacheDir hn ns pt version : String) : Except String String :=
  match validateProviderPath hn ns pt with
  | some e => .error e
  | none =>
    if version = "" then .error "version cannot be empty"
    else .ok (versionPath cacheDir hn ns pt version)

/-- `FilesystemStorage.GetVersion`: same validation as the put. -/
def fsGetVersion (cacheDir hn ns pt version : String) : Except String String :=
  match validateProviderPath hn ns pt with
  | some e => .error e
  | none =>
    if version = "" then .error "version cannot be empty"
    else .ok (versionPath cacheDir hn ns pt version)

/-- `FilesystemStorage.PutVersionsResponse`: no coordinate validation is
performed on this operation — it goes straight to the path. -/
def fsPutVersionsResponse (cacheDir hn ns pt : String) : Except String String :=
  .ok (versionsResponsePath cacheDir hn ns pt)

/-- `MemoryStorage` index key: `"index:" + hn + ":" + ns + ":" + pt`. -/
def memIndexKey (hn ns pt : String) : String :=
  "index:" ++ hn ++ ":" ++ ns ++ ":" ++ pt

/-- `MemoryStorage.PutIndex`: stores under the index key with no coordinate
validation at all; it never fails. -/
def memPutIndex (data : List (String × String)) (hn ns pt value : String) :
    Except String (List (String × String)) :=
  .ok (goMapInsert data (memIndexKey hn ns pt) value)

/-! ## Helper lemmas -/

theorem findPlatforms_eq_nil (vs : List RegistryVersion) (version : String)
    (h : ∀ rv ∈ vs, rv.version ≠ version) : findPlatforms vs version = [] := by
  induction vs with
  | nil => rfl
  | cons v rest ih =>
    have hv : v.version ≠ version := h v (List.mem_cons_self v rest)
    simp only [findPlatforms, if_neg hv]
    exact ih fun rv hrv => h rv (List.mem_cons_of_mem v hrv)

theorem goMapInsert_of_fresh {α : Type} (l : List (String × α)) (k : String) (v : α)
    (h : ∀ kv ∈ l, kv.1 ≠ k) : goMapInsert l k v = l ++ [(k, v)] := by
  have hany : l.any (fun kv => kv.1 = k) = false := by
    rw [← Bool.not_eq_true, List.any_eq_true]
    rintro ⟨kv, hmem, heq⟩
    exact h kv hmem (by simpa using heq)
  simp [goMapInsert, hany]

/-! ## C3: FetchVersion dispatch on discovery -/

/-- C3: for every coordinate and version, when service discovery succeeds
for the host `UpstreamClient.FetchVersion` returns the distinguished
`ErrNotFound` without issuing any fetch; only when discovery fails does it
fetch the single mirror-protocol `{version}.json` URL of that host. -/
theorem fetchVersion_notFound_iff_discovered (d : ServiceDiscovery)
    (fetchFn : String → FetchOutcome) (hn ns pt version : String) :
    FetchVersion (.ok d) fetchFn hn ns pt version = (.error .notFound, []) ∧
    (FetchVersion (.error ()) fetchFn hn ns pt version).2
      = ["https://" ++ hn ++ "/" ++ ns ++ "/" ++ pt ++ "/" ++ version ++ ".json"] := by
  refine ⟨rfl, ?_⟩
  simp only [FetchVersion]
  cases h : fetchFn ("https://" ++ hn ++ "/" ++ ns ++ "/" ++ pt ++ "/" ++ version ++ ".json") with
  | transportErr => simp [h]
  | response status body =>
    cases hc : checkStatusCode status with
    | none => cases body <;> simp [h, hc]
    | some e => simp [h, hc]

/-! ## C8: absent version yields NotFound, nothing cached -/

/-- C8: when the cached bulk listing has no entry matching the requested
version, `buildVersionFromCache` returns the distinguished NotFound error
and leaves the store untouched — no empty or malformed version document is
returned or cached. -/
theorem buildVersionFromCache_absent_notFound (baseURL : String) (st : MetaStore)
    (putOk : Bool) (hn ns pt version : String) (listing : RegistryVersionsResponse)
    (hlist : st.listing = some listing)
    (habsent : ∀ rv ∈ listing.versions, rv.version ≠ version) :
    buildVersionFromCache baseURL st putOk hn ns pt version = (.error .notFound, st) := by
  unfold buildVersionFromCache
  rw [hlist]
  simp [findPlatforms_eq_nil listing.versions version habsent]

/-- C8 witness: a listing holding only version 2.0.0, queried for 1.0.0. -/
theorem buildVersionFromCache_absent_notFound_witness :
    buildVersionFromCache "http://m.local"
      ⟨none, [], some ⟨[⟨"2.0.0", [⟨"linux", "amd64"⟩]⟩]⟩⟩ true
      "registry.terraform.io" "hashicorp" "aws" "1.0.0"
      = (.error .notFound, ⟨none, [], some ⟨[⟨"2.0.0", [⟨"linux", "amd64"⟩]⟩]⟩⟩) :=
  buildVersionFromCache_absent_notFound "http://m.local"
    ⟨none, [], some ⟨[⟨"2.0.0", [⟨"linux", "amd64"⟩]⟩]⟩⟩ true
    "registry.terraform.io" "hashicorp" "aws" "1.0.0"
    ⟨[⟨"2.0.0", [⟨"linux", "amd64"⟩]⟩]⟩ rfl (by decide)

/-! ## C5: metadata cache writes are best-effort, archive persistence is fatal -/

theorem buildVersionFromCache_fst_put_independent (baseURL : String) (st : MetaStore)
    (putOk : Bool) (hn ns pt version : String) :
    (buildVersionFromCache baseURL st putOk hn ns pt version).1
      = (buildVersionFromCache baseURL st true hn ns pt version).1 := by
  unfold buildVersionFromCache
  cases st.listing with
  | none => rfl
  | some listing =>
    by_cases h : findPlatforms listing.versions version = [] <;> simp [h]

/-- C5: in `GetIndex` and `GetVersion` a failure to persist a fetched
metadata document never changes the returned value (the fetched data is
still returned); in `GetArchive` a failure to persist the archive bytes is
fatal: the call errors instead of returning the archive. -/
theorem cache_write_failure_policy (st : MetaStore)
    (fi : Except MErr (IndexResponse × Option RegistryVersionsResponse))
    (p q r : Bool) (baseURL hn ns pt version : String)
    (fv : Except MErr VersionResponse)
    (store : String → Option String) (dl : Except MErr DownloadInfo)
    (fa : String → Except MErr String) (archivePath : String)
    (info : DownloadInfo) (bytes : String) :
    (GetIndex st fi p q).1 = (GetIndex st fi true true).1 ∧
    (GetVersion baseURL st fv r hn ns pt version).1
      = (GetVersion baseURL st fv true hn ns pt version).1 ∧
    (store archivePath = none → dl = .ok info → fa info.downloadURL = .ok bytes →
      (GetArchive store dl fa false archivePath).1 = .error .cacheWriteFailed) := by
  refine ⟨?_, ?_, ?_⟩
  · unfold GetIndex
    cases st.indexDoc with
    | some cached => rfl
    | none =>
      cases fi with
      | error e => rfl
      | ok fetched => cases fetched.2 <;> simp
  · unfold GetVersion
    cases lookupAssoc st.versionDocs version with
    | some cached => rfl
    | none =>
      cases fv with
      | ok resp => simp
      | error e =>
        by_cases he : e = MErr.notFound
        · subst he
          exact buildVersionFromCache_fst_put_independent baseURL st r hn ns pt version
        · simp [he]
  · intro hmiss hdl hfa
    simp [GetArchive, hmiss, hdl, hfa]

/-- C5 witness: concrete miss-and-fetch-success run where the archive write
fails. -/
theorem cache_write_failure_policy_witness :
    (GetArchive (fun _ => none) (.ok ⟨"https://u.example/a.zip", "sha"⟩)
      (fun _ => .ok "ARCHIVEBYTES") false "reg/ns/aws/archives/a.zip").1
      = .error .cacheWriteFailed :=
  (cache_write_failure_policy ⟨none, [], none⟩ (.error .notFound) true true true
    "b" "h" "n" "t" "v" (.error .notFound) (fun _ => none)
    (.ok ⟨"https://u.example/a.zip", "sha"⟩) (fun _ => .ok "ARCHIVEBYTES")
    "reg/ns/aws/archives/a.zip" ⟨"https://u.example/a.zip", "sha"⟩
    "ARCHIVEBYTES").2.2 rfl rfl rfl

/-! ## C6: archive round-trip, second call serves the cache -/

theorem getArchive_ok_means_cached (store : String → Option String)
    (dl : Except MErr DownloadInfo) (fa : String → Except MErr String)
    (putOk : Bool) (archivePath : String) (b : String)
    (h : (GetArchive store dl fa putOk archivePath).1 = .ok b) :
    (GetArchive store dl fa putOk archivePath).2.1 archivePath = some b := by
  unfold GetArchive at h ⊢
  cases hs : store archivePath with
  | some cached => simp_all
  | none =>
    cases dl with
    | error e => simp_all
    | ok info =>
      cases hf : fa info.downloadURL with
      | error e => simp_all
      | ok bytes =>
        cases putOk with
        | false => simp_all
        | true => simp_all

theorem getArchive_hit (store : String → Option String) (dl : Except MErr DownloadInfo)
    (fa : String → Except MErr String) (putOk : Bool) (archivePath b : String)
    (h : store archivePath = some b) :
    GetArchive store dl fa putOk archivePath = (.ok b, store, 0) := by
  unfold GetArchive
  rw [h]

/-- C6: after one successful `GetArchive` for a storage path, a second
`GetArchive` for the same path — under any upstream behavior, including one
that would fail — returns exactly the same bytes, leaves the store
unchanged, and issues zero upstream calls (neither `FetchDownloadURL` nor
`FetchArchive`). -/
theorem getArchive_round_trip (store : String → Option String)
    (dl dl2 : Except MErr DownloadInfo) (fa fa2 : String → Except MErr String)
    (putOk putOk2 : Bool) (archivePath : String) (b : String)
    (hfirst : (GetArchive store dl fa putOk archivePath).1 = .ok b) :
    GetArchive (GetArchive store dl fa putOk archivePath).2.1 dl2 fa2 putOk2 archivePath
      = (.ok b, (GetArchive store dl fa putOk archivePath).2.1, 0) :=
  getArchive_hit _ dl2 fa2 putOk2 archivePath b
    (getArchive_ok_means_cached store dl fa putOk archivePath b hfirst)

/-- C6 witness: a concrete first fetch (cache miss, successful download and
persist) followed by a second call whose upstream would error. -/
theorem getArchive_round_trip_witness :
    GetArchive
      (GetArchive (fun _ => none) (.ok ⟨"https://u.example/a.zip", "sha"⟩)
        (fun _ => .ok "ARCHIVEBYTES") true "reg/ns/aws/archives/a.zip").2.1
      (.error .transport) (fun _ => .error .transport) true "reg/ns/aws/archives/a.zip"
      = (.ok "ARCHIVEBYTES",
         (GetArchive (fun _ => none) (.ok ⟨"https://u.example/a.zip", "sha"⟩)
           (fun _ => .ok "ARCHIVEBYTES") true "reg/ns/aws/archives/a.zip").2.1, 0) :=
  getArchive_round_trip (fun _ => none) (.ok ⟨"https://u.example/a.zip", "sha"⟩)
    (.error .transport) (fun _ => .ok "ARCHIVEBYTES") (fun _ => .error .transport)
    true true "reg/ns/aws/archives/a.zip" "ARCHIVEBYTES" rfl

/-! ## C7: invalid discovered endpoint path fails validation, uncached -/

theorem isBadChar_of (c : Char) (h : c.toNat < 32 ∨ c.toNat = 127 ∨ c = ' ') :
    isBadChar c = true := by
  rcases h with h | h | h <;> simp [isBadChar, h]

/-- C7: when the discovered `providers.v1` endpoint path is empty, contains
a control character or space, or is an absolute URL with an empty host or a
scheme other than http/https, `DiscoverServices` fails validation, returns
an error for that call, and does not populate the cache entry. -/
theorem discoverServices_invalid_url_not_cached
    (cache : List (String × ServiceDiscovery)) (hostname pv1 : String)
    (hbad : pv1 = ""
      ∨ (∃ c ∈ pv1.toList, c.toNat < 32 ∨ c.toNat = 127 ∨ c = ' ')
      ∨ (∃ u, parseGoURL pv1 = some u ∧ u.scheme ≠ ""
          ∧ (u.host = "" ∨ (u.scheme ≠ "http" ∧ u.scheme ≠ "https")))) :
    isValidProvidersURL pv1 = false ∧
    finishDiscovery cache hostname (some pv1)
      = (.error (.invalidProvidersURL pv1), cache) := by
  have hvalid : isValidProvidersURL pv1 = false := by
    unfold isValidProvidersURL
    rcases hbad with h | h | h
    · rw [if_pos h]
    · obtain ⟨c, hc, hcbad⟩ := h
      have hany : pv1.toList.any isBadChar = true :=
        List.any_eq_true.mpr ⟨c, hc, isBadChar_of c hcbad⟩
      by_cases h0 : pv1 = ""
      · rw [if_pos h0]
      · rw [if_neg h0, if_pos hany]
    · obtain ⟨u, hu, hscheme, hrest⟩ := h
      by_cases h0 : pv1 = ""
      · rw [if_pos h0]
      · by_cases h1 : pv1.toList.any isBadChar = true
        · rw [if_neg h0, if_pos h1]
        · rw [if_neg h0, if_neg h1, hu]
          show (if u.scheme ≠ "" then
              if u.host = "" then false
              else if u.scheme ≠ "http" ∧ u.scheme ≠ "https" then false
              else true
            else true) = false
          rw [if_pos hscheme]
          rcases hrest with hh | hs
          · rw [if_pos hh]
          · by_cases hh : u.host = ""
            · rw [if_pos hh]
            · rw [if_neg hh, if_pos hs]
  exact ⟨hvalid, by simp [finishDiscovery, hvalid]⟩

/-- C7 witness: the empty endpoint path is rejected and the cache stays
empty. -/
theorem discoverServices_invalid_url_not_cached_witness :
    isValidProvidersURL "" = false ∧
    finishDiscovery [] "registry.terraform.io" (some "")
      = (.error (.invalidProvidersURL ""), []) :=
  discoverServices_invalid_url_not_cached [] "registry.terraform.io" "" (Or.inl rfl)

/-! ## C9: coordinate validation at the storage boundary

The filesystem backend validates coordinates for its index and version
operations, but `MemoryStorage` performs no validation at all and the
filesystem `GetVersionsResponse`/`PutVersionsResponse` skip
`validateProviderPath`, so the claim that every storage operation taking a
coordinate rejects path separators fails on the code. -/

/-- C9 counterexample: `MemoryStorage.PutIndex` accepts a hostname
containing `/` (storing under the unvalidated key), and the filesystem
`PutVersionsResponse` builds its path from a hostname containing `/`
without any validation — so not every storage operation rejects
path-separator coordinates. -/
theorem storage_separator_accepted_counterexample :
    memPutIndex [] "evil/host" "hashicorp" "aws" "data"
      = .ok [("index:evil/host:hashicorp:aws", "data")] ∧
    fsPutVersionsResponse "/cache" "evil/host" "hashicorp" "aws"
      = .ok "/cache/.speculum-internal/evil/host/hashicorp/aws/versions.json" := by
  exact ⟨rfl, rfl⟩

theorem validateProviderPath_rejects_sep (hn ns pt : String)
    (hsep : hn.toList.contains '/' = true ∨ hn.toList.contains '\\' = true
      ∨ ns.toList.contains '/' = true ∨ ns.toList.contains '\\' = true
      ∨ pt.toList.contains '/' = true ∨ pt.toList.contains '\\' = true) :
    ∃ msg, validateProviderPath hn ns pt = some msg := by
  unfold validateProviderPath
  by_cases h0 : hn = "" ∨ ns = "" ∨ pt = ""
  · exact ⟨"hostname, namespace, and providerType cannot be empty", by rw [if_pos h0]⟩
  · have hany :
        [hn, ns, pt].any (fun c => c.toList.contains '/' || c.toList.contains '\\') = true := by
      apply List.any_eq_true.mpr
      rcases hsep with h | h | h | h | h | h
      · exact ⟨hn, by simp, by simp at h; simp [h]⟩
      · exact ⟨hn, by simp, by simp at h; simp [h]⟩
      · exact ⟨ns, by simp, by simp at h; simp [h]⟩
      · exact ⟨ns, by simp, by simp at h; simp [h]⟩
      · exact ⟨pt, by simp, by simp at h; simp [h]⟩
      · exact ⟨pt, by simp, by simp at h; simp [h]⟩
    exact ⟨"invalid character in path component", by rw [if_neg h0, if_pos hany]⟩

/-- C9 (amended): the filesystem backend's index and version operations
reject any coordinate with a component containing `/` or `\` before any
read or write; the in-memory backend and the filesystem versions-response
operation perform no such validation and always proceed. -/
theorem storage_boundary_validation (cacheDir hn ns pt version : String)
    (hsep : hn.toList.contains '/' = true ∨ hn.toList.contains '\\' = true
      ∨ ns.toList.contains '/' = true ∨ ns.toList.contains '\\' = true
      ∨ pt.toList.contains '/' = true ∨ pt.toList.contains '\\' = true) :
    (∃ e, fsPutIndex cacheDir hn ns pt = .error e) ∧
    (∃ e, fsGetIndex cacheDir hn ns pt = .error e) ∧
    (∃ e, fsPutVersion cacheDir hn ns pt version = .error e) ∧
    (∃ e, fsGetVersion cacheDir hn ns pt version = .error e) ∧
    (∀ data value, ∃ st, memPutIndex data hn ns pt value = .ok st) ∧
    (∃ path, fsPutVersionsResponse cacheDir hn ns pt = .ok path) := by
  obtain ⟨msg, hmsg⟩ := validateProviderPath_rejects_sep hn ns pt hsep
  refine ⟨⟨msg, ?_⟩, ⟨msg, ?_⟩, ⟨msg, ?_⟩, ⟨msg, ?_⟩, fun data value => ⟨_, rfl⟩, ⟨_, rfl⟩⟩
  all_goals simp [fsPutIndex, fsGetIndex, fsPutVersion, fsGetVersion, hmsg]

/-- C9 (amended) witness: a hostname containing `/`. -/
theorem storage_boundary_validation_witness :
    (∃ e, fsPutIndex "/cache" "evil/host" "hashicorp" "aws" = .error e) ∧
    (∃ e, fsGetIndex "/cache" "evil/host" "hashicorp" "aws" = .error e) ∧
    (∃ e, fsPutVersion "/cache" "evil/host" "hashicorp" "aws" "1.0.0" = .error e) ∧
    (∃ e, fsGetVersion "/cache" "evil/host" "hashicorp" "aws" "1.0.0" = .error e) ∧
    (∀ data value, ∃ st, memPutIndex data "evil/host" "hashicorp" "aws" value = .ok st) ∧
    (∃ path, fsPutVersionsResponse "/cache" "evil/host" "hashicorp" "aws" = .ok path) :=
  storage_boundary_validation "/cache" "evil/host" "hashicorp" "aws" "1.0.0"
    (Or.inl (by decide))

/-! ## C4: retry policy of doRequestWithRetry -/

theorem range_pow_shift (i n : Nat) :
    (List.range (n + 1)).map (fun j => 2 ^ (i + j))
      = 2 ^ i :: (List.range n).map (fun j => 2 ^ (i + 1 + j)) := by
  rw [List.range_succ_eq_map, List.map_cons, List.map_map]
  refine congrArg₂ List.cons (by simp) ?_
  refine List.map_congr_left fun j _ => ?_
  show 2 ^ (i + (j + 1)) = 2 ^ (i + 1 + j)
  congr 1
  omega

theorem retryLoop_spec (attempts : Nat → AttemptOutcome) (cancelledAt : Nat → Bool) :
    ∀ (fuel i : Nat), 1 ≤ fuel →
      (1 ≤ (retryLoop attempts cancelledAt i fuel).attemptsMade
        ∧ (retryLoop attempts cancelledAt i fuel).attemptsMade ≤ fuel) ∧
      (retryLoop attempts cancelledAt i fuel).backoffs
        = (List.range ((retryLoop attempts cancelledAt i fuel).attemptsMade - 1)).map
            (fun j => 2 ^ (i + j)) ∧
      (∀ j, j + 1 < (retryLoop attempts cancelledAt i fuel).attemptsMade →
        (∀ s, attempts (i + j) = .status s → 500 ≤ s) ∧ cancelledAt (i + j) = false) := by
  intro fuel
  induction fuel with
  | zero => intro i h; omega
  | succ f ih =>
    intro i _
    show (1 ≤ (retryLoop attempts cancelledAt i (f + 1)).attemptsMade ∧ _) ∧ _
    unfold retryLoop
    cases ha : attempts i with
    | netErr =>
      by_cases hf : 0 < f
      · by_cases hc : cancelledAt i = true
        · simp only [if_pos hf, if_pos hc]
          refine ⟨⟨le_refl 1, by omega⟩, by simp, fun j hj => absurd hj (by simp)⟩
        · simp only [if_pos hf, if_neg hc]
          obtain ⟨⟨h1, h2⟩, hb, hj⟩ := ih (i + 1) hf
          refine ⟨⟨by omega, by omega⟩, ?_, ?_⟩
          · show 2 ^ i :: _ = _
            rw [hb]
            have : (retryLoop attempts cancelledAt (i + 1) f).attemptsMade + 1 - 1
                = ((retryLoop attempts cancelledAt (i + 1) f).attemptsMade - 1) + 1 := by omega
            rw [this, range_pow_shift]
          · intro j hjlt
            cases j with
            | zero =>
              refine ⟨fun s hs => ?_, ?_⟩
              · rw [Nat.add_zero] at hs; rw [ha] at hs; cases hs
              · rw [Nat.add_zero]; exact Bool.eq_false_iff.mpr hc
            | succ j' =>
              have := hj j' (by simpa using Nat.lt_of_succ_lt_succ hjlt)
              constructor
              · intro s hs
                exact this.1 s (by rw [show i + 1 + j' = i + (j' + 1) by omega]; exact hs)
              · rw [show i + (j' + 1) = i + 1 + j' by omega]
                exact this.2
      · simp only [if_neg hf]
        refine ⟨⟨le_refl 1, by omega⟩, by simp, fun j hj => absurd hj (by simp)⟩
    | status s =>
      by_cases h5 : s < 500
      · simp only [if_pos h5]
        refine ⟨⟨le_refl 1, by omega⟩, by simp, fun j hj => absurd hj (by simp)⟩
      · by_cases hf : 0 < f
        · by_cases hc : cancelledAt i = true
          · simp only [if_neg h5, if_pos hf, if_pos hc]
            refine ⟨⟨le_refl 1, by omega⟩, by simp, fun j hj => absurd hj (by simp)⟩
          · simp only [if_neg h5, if_pos hf, if_neg hc]
            obtain ⟨⟨h1, h2⟩, hb, hj⟩ := ih (i + 1) hf
            refine ⟨⟨by omega, by omega⟩, ?_, ?_⟩
            · show 2 ^ i :: _ = _
              rw [hb]
              have : (retryLoop attempts cancelledAt (i + 1) f).attemptsMade + 1 - 1
                  = ((retryLoop attempts cancelledAt (i + 1) f).attemptsMade - 1) + 1 := by
                omega
              rw [this, range_pow_shift]
            · intro j hjlt
              cases j with
              | zero =>
                refine ⟨fun s' hs => ?_, ?_⟩
                · rw [Nat.add_zero] at hs; rw [ha] at hs
                  cases hs; omega
                · rw [Nat.add_zero]; exact Bool.eq_false_iff.mpr hc
              | succ j' =>
                have := hj j' (by simpa using Nat.lt_of_succ_lt_succ hjlt)
                constructor
                · intro s' hs
                  exact this.1 s' (by rw [show i + 1 + j' = i + (j' + 1) by omega]; exact hs)
                · rw [show i + (j' + 1) = i + 1 + j' by omega]
                  exact this.2
        · simp only [if_neg h5, if_neg hf]
          refine ⟨⟨le_refl 1, by omega⟩, by simp, fun j hj => absurd hj (by simp)⟩

theorem retryLoop_first_lt500 (attempts : Nat → AttemptOutcome) (cancelledAt : Nat → Bool)
    (i fuel s : Nat) (h5 : s < 500) (ha : attempts i = .status s) (hf : 1 ≤ fuel) :
    retryLoop attempts cancelledAt i fuel = ⟨1, [], .ok s⟩ := by
  cases fuel with
  | zero => omega
  | succ f =>
    unfold retryLoop
    rw [ha]
    simp only [if_pos h5]

/-- C4: every metadata fetch retries only on transport failure or 5xx, at
most `maxRetries + 1` attempts in total, waiting `2^attempt` seconds
between consecutive attempts, never continuing past a cancelled backoff;
the first response with status below 500 is returned immediately with no
retry and no backoff. -/
theorem doRequestWithRetry_policy (maxRetries : Nat) (attempts : Nat → AttemptOutcome)
    (cancelledAt : Nat → Bool) :
    (1 ≤ (doRequestWithRetry maxRetries attempts cancelledAt).attemptsMade
      ∧ (doRequestWithRetry maxRetries attempts cancelledAt).attemptsMade ≤ maxRetries + 1) ∧
    (doRequestWithRetry maxRetries attempts cancelledAt).backoffs
      = (List.range ((doRequestWithRetry maxRetries attempts cancelledAt).attemptsMade - 1)).map
          (fun j => 2 ^ j) ∧
    (∀ j, j + 1 < (doRequestWithRetry maxRetries attempts cancelledAt).attemptsMade →
      (∀ s, attempts j = .status s → 500 ≤ s) ∧ cancelledAt j = false) ∧
    (∀ s, s < 500 → attempts 0 = .status s →
      doRequestWithRetry maxRetries attempts cancelledAt = ⟨1, [], .ok s⟩) := by
  obtain ⟨hbound, hback, hfail⟩ :=
    retryLoop_spec attempts cancelledAt (maxRetries + 1) 0 (by omega)
  refine ⟨hbound, ?_, ?_, ?_⟩
  · show (retryLoop attempts cancelledAt 0 (maxRetries + 1)).backoffs = _
    rw [hback]
    exact List.map_congr_left fun j _ => by rw [Nat.zero_add]
  · intro j hj
    have := hfail j hj
    rwa [Nat.zero_add] at this
  · intro s h5 ha
    exact retryLoop_first_lt500 attempts cancelledAt 0 (maxRetries + 1) s h5 ha (by omega)

/-- C4 witness: a 301 on the first attempt is returned at once — one
attempt, no backoff. -/
theorem doRequestWithRetry_policy_witness :
    doRequestWithRetry 2 (fun _ => AttemptOutcome.status 301) (fun _ => false)
      = ⟨1, [], .ok 301⟩ :=
  (doRequestWithRetry_policy 2 (fun _ => AttemptOutcome.status 301)
    (fun _ => false)).2.2.2 301 (by omega) rfl

/-! ## C10: only status 200 is a metadata-fetch success -/

/-- C10: at the metadata-fetch level only an HTTP 200 counts as success:
`checkStatusCode` maps 404 to the NotFound sentinel and every other
non-200 status — including non-200 2xx and 3xx statuses, which the retry
layer returns without retrying — to a generic unexpected-status error. -/
theorem checkStatusCode_only_200 (s : Nat) (maxRetries : Nat)
    (attempts : Nat → AttemptOutcome) (cancelledAt : Nat → Bool) :
    checkStatusCode 200 = none ∧
    checkStatusCode 404 = some .notFound ∧
    (s ≠ 200 → s ≠ 404 → checkStatusCode s = some (.unexpectedStatus s)) ∧
    (∀ c, c < 500 → attempts 0 = .status c →
      doRequestWithRetry maxRetries attempts cancelledAt = ⟨1, [], .ok c⟩) := by
  refine ⟨rfl, rfl, fun h200 h404 => ?_, fun c h5 ha => ?_⟩
  · unfold checkStatusCode
    rw [if_neg h404, if_pos h200]
  · exact retryLoop_first_lt500 attempts cancelledAt 0 (maxRetries + 1) c h5 ha (by omega)

/-- C10 witness: 201 and 204 are errors, not retried; 404 is the NotFound
sentinel. -/
theorem checkStatusCode_only_200_witness :
    checkStatusCode 201 = some (.unexpectedStatus 201) ∧
    doRequestWithRetry 3 (fun _ => AttemptOutcome.status 204) (fun _ => false)
      = ⟨1, [], .ok 204⟩ :=
  ⟨(checkStatusCode_only_200 201 3 (fun _ => AttemptOutcome.status 204)
      (fun _ => false)).2.2.1 (by omega) (by omega),
   (checkStatusCode_only_200 201 3 (fun _ => AttemptOutcome.status 204)
      (fun _ => false)).2.2.2 204 (by omega) rfl⟩

/-! ## C1: version document built from the cached bulk listing -/

theorem buildArchives_foldl_eq (baseURL hn ns pt version : String) :
    ∀ (ps : List RegistryPlatform) (acc : List (String × Archive)),
      (acc.map Prod.fst ++ ps.map (fun p => buildPlatformKey p.os p.arch)).Nodup →
      ps.foldl
          (fun acc p =>
            let kv := mkCacheArchive baseURL hn ns pt version p
            goMapInsert acc kv.1 kv.2)
          acc
        = acc ++ ps.map (mkCacheArchive baseURL hn ns pt version) := by
  intro ps
  induction ps with
  | nil => intro acc _; simp
  | cons p rest ih =>
    intro acc hnodup
    obtain ⟨h1, h2, hdisj⟩ := List.nodup_append.mp (by simpa using hnodup)
    have hfresh : ∀ kv ∈ acc, kv.1 ≠ buildPlatformKey p.os p.arch := by
      intro kv hkv heq
      have hmem : kv.1 ∈ acc.map Prod.fst := List.mem_map_of_mem Prod.fst hkv
      have : kv.1 ∉ buildPlatformKey p.os p.arch :: rest.map (fun q => buildPlatformKey q.os q.arch) :=
        hdisj hmem
      exact this (heq ▸ List.mem_cons_self _ _)
    rw [List.foldl_cons]
    have hstep :
        (let kv := mkCacheArchive baseURL hn ns pt version p
         goMapInsert acc kv.1 kv.2)
          = acc ++ [mkCacheArchive baseURL hn ns pt version p] :=
      goMapInsert_of_fresh acc _ _ hfresh
    rw [hstep, ih (acc ++ [mkCacheArchive baseURL hn ns pt version p]) (by
      simpa [List.append_assoc] using hnodup)]
    simp

theorem buildArchives_eq_map (baseURL hn ns pt version : String)
    (ps : List RegistryPlatform)
    (hkeys : (ps.map (fun p => buildPlatformKey p.os p.arch)).Nodup) :
    buildArchives baseURL hn ns pt version ps
      = ps.map (mkCacheArchive baseURL hn ns pt version) := by
  unfold buildArchives
  simpa using buildArchives_foldl_eq baseURL hn ns pt version ps [] (by simpa using hkeys)

/-- C1: on a version-document cache miss where `FetchVersion` reports
not-found and the cached bulk listing has the requested version with a
non-empty platform list (with pairwise-distinct platform keys),
`Mirror.GetVersion` — via `buildVersionFromCache` — returns a version
document with exactly one archive entry per listed platform, keyed
`os_arch`, whose URL is
`{baseURL-without-trailing-slash}/download/{hostname}/{namespace}/{type}/{version}/{os}/{arch}/terraform-provider-{type}_{version}_{os}_{arch}.zip`,
and no entry carries hashes. -/
theorem getVersion_built_from_bulk (baseURL : String) (st : MetaStore) (putOk : Bool)
    (hn ns pt version : String) (listing : RegistryVersionsResponse)
    (ps : List RegistryPlatform)
    (hmiss : lookupAssoc st.versionDocs version = none)
    (hlist : st.listing = some listing)
    (hfind : findPlatforms listing.versions version = ps)
    (hne : ps ≠ [])
    (hkeys : (ps.map (fun p => buildPlatformKey p.os p.arch)).Nodup) :
    (GetVersion baseURL st (.error .notFound) putOk hn ns pt version).1
      = .ok ⟨ps.map (mkCacheArchive baseURL hn ns pt version)⟩ ∧
    ∀ p ∈ ps,
      mkCacheArchive baseURL hn ns pt version p
        = (p.os ++ "_" ++ p.arch,
           ⟨trimSuffix baseURL "/" ++ "/download/" ++ hn ++ "/" ++ ns ++ "/" ++ pt ++ "/"
              ++ version ++ "/" ++ p.os ++ "/" ++ p.arch ++ "/"
              ++ ("terraform-provider-" ++ pt ++ "_" ++ version ++ "_" ++ p.os ++ "_"
                  ++ p.arch ++ ".zip"),
            none⟩) := by
  refine ⟨?_, fun p _ => rfl⟩
  have hdisp : (GetVersion baseURL st (.error .notFound) putOk hn ns pt version).1
      = (buildVersionFromCache baseURL st putOk hn ns pt version).1 := by
    unfold GetVersion
    rw [hmiss]
    rfl
  rw [hdisp]
  unfold buildVersionFromCache
  simp only [hlist]
  rw [hfind, if_neg hne]
  show Except.ok (⟨buildArchives baseURL hn ns pt version ps⟩ : VersionResponse) = _
  rw [buildArchives_eq_map baseURL hn ns pt version ps hkeys]

/-- C1 witness: the spec's example — version 1.0.0 with platforms
linux/amd64 and darwin/amd64, a trailing-slash base URL. -/
theorem getVersion_built_from_bulk_witness :
    (GetVersion "http://m.local/"
        ⟨none, [], some ⟨[⟨"1.0.0", [⟨"linux", "amd64"⟩, ⟨"darwin", "amd64"⟩]⟩]⟩⟩
        (.error .notFound) true "registry.terraform.io" "hashicorp" "aws" "1.0.0").1
      = .ok ⟨[("linux_amd64",
               ⟨"http://m.local/download/registry.terraform.io/hashicorp/aws/1.0.0/linux/amd64/terraform-provider-aws_1.0.0_linux_amd64.zip",
                none⟩),
              ("darwin_amd64",
               ⟨"http://m.local/download/registry.terraform.io/hashicorp/aws/1.0.0/darwin/amd64/terraform-provider-aws_1.0.0_darwin_amd64.zip",
                none⟩)]⟩ := by
  rw [(getVersion_built_from_bulk "http://m.local/"
      ⟨none, [], some ⟨[⟨"1.0.0", [⟨"linux", "amd64"⟩, ⟨"darwin", "amd64"⟩]⟩]⟩⟩ true
      "registry.terraform.io" "hashicorp" "aws" "1.0.0"
      ⟨[⟨"1.0.0", [⟨"linux", "amd64"⟩, ⟨"darwin", "amd64"⟩]⟩]⟩
      [⟨"linux", "amd64"⟩, ⟨"darwin", "amd64"⟩]
      rfl rfl rfl (by decide) (by decide)).1]
  rfl

/-! ## C2: single-flight coalescing of DiscoverServices -/

/-- Invariant of the coalescing episode: at most one fetch ever starts (under
success outcomes), the in-flight flag tracks the unique fetching caller, the
cache is set exactly by the completed fetch, and every completed caller got
the cached entry. -/
def Inv (s : DState) : Prop :=
  s.fetchCount ≤ 1 ∧
  (s.inFlight = false → ∀ i : Nat, s.phases[i]? ≠ some Phase.fetching) ∧
  (s.inFlight = true → s.cache = none ∧ s.fetchCount = 1) ∧
  (s.fetchCount = 0 → s.cache = none ∧ s.inFlight = false) ∧
  (s.fetchCount = 1 → s.inFlight = false → ∃ e, s.cache = some e) ∧
  (∀ (i : Nat) (r : Option ServiceDiscovery),
    s.phases[i]? = some (Phase.done r) → ∃ e, r = some e ∧ s.cache = some e) ∧
  (∀ i j : Nat,
    s.phases[i]? = some Phase.fetching → s.phases[j]? = some Phase.fetching → i = j)

theorem inv_done_of_cache (s : DState) (i : Nat) (e : ServiceDiscovery)
    (hinv : Inv s) (hcache : s.cache = some e) (hi : i < s.phases.length) :
    Inv ⟨some e, s.inFlight, s.phases.set i (Phase.done (some e)), s.fetchCount⟩ := by
  obtain ⟨A, B, C, D, E, F, G⟩ := hinv
  refine ⟨A, ?_, ?_, ?_, fun h1 h2 => ⟨e, rfl⟩, ?_, ?_⟩
  · intro hif j
    by_cases hji : i = j
    · subst hji
      rw [List.getElem?_set_self hi]
      intro h; cases h
    · rw [List.getElem?_set_ne hji]
      exact B hif j
  · intro hif
    have := (C hif).1
    rw [hcache] at this
    cases this
  · intro h0
    have := (D h0).1
    rw [hcache] at this
    cases this
  · intro j r hj
    by_cases hji : i = j
    · subst hji
      rw [List.getElem?_set_self hi] at hj
      injection hj with hj
      injection hj with hj
      exact ⟨e, hj.symm, rfl⟩
    · rw [List.getElem?_set_ne hji] at hj
      obtain ⟨e', her, he'⟩ := F j r hj
      rw [hcache] at he'
      injection he' with he'
      exact ⟨e, by rw [her, he'], rfl⟩
  · intro j k hj hk
    by_cases hji : i = j
    · subst hji; rw [List.getElem?_set_self hi] at hj; cases hj
    · by_cases hki : i = k
      · subst hki; rw [List.getElem?_set_self hi] at hk; cases hk
      · rw [List.getElem?_set_ne hji] at hj
        rw [List.getElem?_set_ne hki] at hk
        exact G j k hj hk

theorem inv_waiting_set (s : DState) (i : Nat)
    (hinv : Inv s) (hcache : s.cache = none) (hif : s.inFlight = true)
    (hi : i < s.phases.length) :
    Inv ⟨none, true, s.phases.set i Phase.waiting, s.fetchCount⟩ := by
  obtain ⟨A, B, C, D, E, F, G⟩ := hinv
  refine ⟨A, ?_, ?_, ?_, ?_, ?_, ?_⟩
  · intro hflight j
    cases hflight
  · intro _
    exact ⟨rfl, (C hif).2⟩
  · intro h0
    have := (D h0).2
    rw [hif] at this
    cases this
  · intro _ hflight
    cases hflight
  · intro j r hj
    by_cases hji : i = j
    · subst hji; rw [List.getElem?_set_self hi] at hj; cases hj
    · rw [List.getElem?_set_ne hji] at hj
      obtain ⟨e', _, he'⟩ := F j r hj
      rw [hcache] at he'
      cases he'
  · intro j k hj hk
    by_cases hji : i = j
    · subst hji; rw [List.getElem?_set_self hi] at hj; cases hj
    · by_cases hki : i = k
      · subst hki; rw [List.getElem?_set_self hi] at hk; cases hk
      · rw [List.getElem?_set_ne hji] at hj
        rw [List.getElem?_set_ne hki] at hk
        exact G j k hj hk

theorem inv_start_fetch (s : DState) (i : Nat)
    (hinv : Inv s) (hcache : s.cache = none) (hif : s.inFlight = false)
    (hi : i < s.phases.length) :
    Inv ⟨none, true, s.phases.set i Phase.fetching, s.fetchCount + 1⟩ := by
  obtain ⟨A, B, C, D, E, F, G⟩ := hinv
  have hcount : s.fetchCount = 0 := by
    rcases Nat.eq_or_lt_of_le A with h | h
    · obtain ⟨e, he⟩ := E h hif
      rw [hcache] at he
      cases he
    · omega
  refine ⟨?_, ?_, ?_, ?_, ?_, ?_, ?_⟩
  · show s.fetchCount + 1 ≤ 1
    omega
  · intro hflight
    cases hflight
  · intro _
    exact ⟨rfl, by show s.fetchCount + 1 = 1; omega⟩
  · intro h0
    have h0' : s.fetchCount + 1 = 0 := h0
    omega
  · intro _ hflight
    cases hflight
  · intro j r hj
    by_cases hji : i = j
    · subst hji; rw [List.getElem?_set_self hi] at hj; cases hj
    · rw [List.getElem?_set_ne hji] at hj
      obtain ⟨e, _, he⟩ := F j r hj
      rw [hcache] at he
      cases he
  · intro j k hj hk
    by_cases hji : i = j
    · by_cases hki : i = k
      · omega
      · rw [List.getElem?_set_ne hki] at hk
        exact absurd hk (B hif k)
    · rw [List.getElem?_set_ne hji] at hj
      exact absurd hj (B hif j)

theorem inv_complete (s : DState) (i : Nat) (e : ServiceDiscovery)
    (hinv : Inv s) (hfetching : s.phases[i]? = some .fetching) :
    Inv { cache := some e, inFlight := false,
          phases := s.phases.set i (.done (some e)), fetchCount := s.fetchCount } := by
  obtain ⟨A, B, C, D, E, F, G⟩ := hinv
  have hi : i < s.phases.length := (List.getElem?_eq_some_iff.mp hfetching).1
  have hflight : s.inFlight = true := by
    cases hf : s.inFlight with
    | true => rfl
    | false => exact absurd hfetching (B hf i)
  obtain ⟨hcache, hcount⟩ := C hflight
  refine ⟨A, ?_, ?_, ?_, ?_, ?_, ?_⟩
  · intro _ j
    by_cases hji : i = j
    · subst hji
      rw [List.getElem?_set_self hi]
      intro h; cases h
    · rw [List.getElem?_set_ne hji]
      intro h
      exact hji (G j i h hfetching).symm
  · intro h; cases h
  · intro h0
    have h0' : s.fetchCount = 0 := h0
    omega
  · intro _ _
    exact ⟨e, rfl⟩
  · intro j r hj
    by_cases hji : i = j
    · subst hji
      rw [List.getElem?_set_self hi] at hj
      injection hj with hj
      injection hj with hj
      exact ⟨e, hj.symm, rfl⟩
    · rw [List.getElem?_set_ne hji] at hj
      obtain ⟨e', _, he'⟩ := F j r hj
      rw [hcache] at he'
      cases he'
  · intro j k hj hk
    by_cases hji : i = j
    · subst hji; rw [List.getElem?_set_self hi] at hj; cases hj
    · rw [List.getElem?_set_ne hji] at hj
      exact absurd (G j i hj hfetching).symm hji

theorem dstep_inv (s s' : DState) (step : DStep) (hok : stepOK step = true)
    (hs : dstep s step = some s') (hinv : Inv s) : Inv s' := by
  cases step with
  | enter i =>
    simp only [dstep] at hs
    cases hp : s.phases[i]? with
    | none => rw [hp] at hs; cases hs
    | some ph =>
      rw [hp] at hs
      cases ph with
      | start =>
        have hi : i < s.phases.length := (List.getElem?_eq_some_iff.mp hp).1
        cases hc : s.cache with
        | some e =>
          rw [hc] at hs
          cases hs
          exact inv_done_of_cache s i e hinv hc hi
        | none =>
          rw [hc] at hs
          cases hflight : s.inFlight with
          | true =>
            rw [hflight] at hs
            simp only [if_pos rfl] at hs
            cases hs
            exact inv_waiting_set s i hinv hc hflight hi
          | false =>
            rw [hflight] at hs
            simp only [Bool.false_eq_true, if_neg] at hs
            cases hs
            exact inv_start_fetch s i hinv hc hflight hi
      | waiting => cases hs
      | fetching => cases hs
      | done r => cases hs
  | wake i =>
    simp only [dstep] at hs
    cases hp : s.phases[i]? with
    | none => rw [hp] at hs; cases hs
    | some ph =>
      rw [hp] at hs
      cases ph with
      | waiting =>
        have hi : i < s.phases.length := (List.getElem?_eq_some_iff.mp hp).1
        cases hc : s.cache with
        | some e =>
          rw [hc] at hs
          cases hs
          exact inv_done_of_cache s i e hinv hc hi
        | none =>
          rw [hc] at hs
          cases hflight : s.inFlight with
          | true =>
            rw [hflight] at hs
            simp only [if_pos rfl] at hs
            cases hs
            exact hinv
          | false =>
            rw [hflight] at hs
            simp only [Bool.false_eq_true, if_neg] at hs
            cases hs
            exact inv_start_fetch s i hinv hc hflight hi
      | start => cases hs
      | fetching => cases hs
      | done r => cases hs
  | complete i outcome =>
    simp only [dstep] at hs
    cases hp : s.phases[i]? with
    | none => rw [hp] at hs; cases hs
    | some ph =>
      rw [hp] at hs
      cases ph with
      | fetching =>
        cases outcome with
        | none => simp [stepOK] at hok
        | some e =>
          cases hs
          exact inv_complete s i e hinv hp
      | start => cases hs
      | waiting => cases hs
      | done r => cases hs

theorem drun_inv : ∀ (tr : List DStep) (s s' : DState),
    (∀ step ∈ tr, stepOK step = true) → Inv s → drun s tr = some s' → Inv s'
  | [], s, s', _, hinv, h => by
    simp only [drun] at h
    cases h
    exact hinv
  | step :: rest, s, s', hok, hinv, h => by
    simp only [drun] at h
    cases hstep : dstep s step with
    | none => rw [hstep] at h; cases h
    | some next =>
      rw [hstep] at h
      exact drun_inv rest next s'
        (fun x hx => hok x (List.mem_cons_of_mem step hx))
        (dstep_inv s next step (hok step (List.mem_cons_self step rest)) hstep hinv) h

theorem dinit_inv (n : Nat) : Inv (dinit n) := by
  refine ⟨Nat.zero_le 1, ?_, ?_, fun _ => ⟨rfl, rfl⟩, ?_, ?_, ?_⟩
  · intro _ i
    show (List.replicate n Phase.start)[i]? ≠ some .fetching
    rw [List.getElem?_replicate]
    by_cases h : i < n
    · rw [if_pos h]; intro hx; cases hx
    · rw [if_neg h]; intro hx; cases hx
  · intro h; cases h
  · intro h; cases h
  · intro i r hi
    rw [show (dinit n).phases = List.replicate n Phase.start from rfl,
        List.getElem?_replicate] at hi
    by_cases h : i < n
    · rw [if_pos h] at hi; cases hi
    · rw [if_neg h] at hi; cases hi
  · intro i j hi hj
    rw [show (dinit n).phases = List.replicate n Phase.start from rfl,
        List.getElem?_replicate] at hi
    by_cases h : i < n
    · rw [if_pos h] at hi; cases hi
    · rw [if_neg h] at hi; cases hi

/-- C2: in any interleaved execution of `DiscoverServices` callers for one
hostname, starting from an absent (or expired) cache entry, in which every
completed fetch succeeds, once every caller has finished exactly one
upstream discovery fetch was issued and every caller received the winner's
cached record. -/
theorem discoverServices_single_flight (n : Nat) (tr : List DStep) (s : DState)
    (hrun : drun (dinit n) tr = some s)
    (hok : ∀ step ∈ tr, stepOK step = true)
    (hdone : ∀ p ∈ s.phases, p.isDone = true)
    (hne : s.phases ≠ []) :
    s.fetchCount = 1 ∧ ∃ e, s.cache = some e ∧ ∀ p ∈ s.phases, p = .done (some e) := by
  obtain ⟨A, B, C, D, E, F, G⟩ := drun_inv tr (dinit n) s hok (dinit_inv n) hrun
  obtain ⟨p0, hp0⟩ := List.exists_mem_of_ne_nil s.phases hne
  have hp0d := hdone p0 hp0
  cases p0 with
  | start => cases hp0d
  | waiting => cases hp0d
  | fetching => cases hp0d
  | done r =>
    obtain ⟨i0, hi0⟩ := List.mem_iff_getElem?.mp hp0
    obtain ⟨e, _, hcache⟩ := F i0 r hi0
    have hcount : s.fetchCount = 1 := by
      by_cases h0 : s.fetchCount = 0
      · have := (D h0).1
        rw [hcache] at this
        cases this
      · omega
    refine ⟨hcount, e, hcache, ?_⟩
    intro p hp
    have hpd := hdone p hp
    cases p with
    | start => cases hpd
    | waiting => cases hpd
    | fetching => cases hpd
    | done rp =>
      obtain ⟨ip, hip⟩ := List.mem_iff_getElem?.mp hp
      obtain ⟨ep, herp, hcachep⟩ := F ip rp hip
      rw [hcache] at hcachep
      injection hcachep with he
      rw [herp, he]

/-- C2 witness: two concurrent callers — the second enters while the first
is fetching, waits, and receives the winner's record; one fetch total. -/
theorem discoverServices_single_flight_witness :
    (⟨some ⟨"registry.terraform.io", "/v1/providers/"⟩, false,
      [Phase.done (some ⟨"registry.terraform.io", "/v1/providers/"⟩),
       Phase.done (some ⟨"registry.terraform.io", "/v1/providers/"⟩)], 1⟩ : DState).fetchCount
      = 1 ∧
    ∀ p ∈ (⟨some ⟨"registry.terraform.io", "/v1/providers/"⟩, false,
      [Phase.done (some ⟨"registry.terraform.io", "/v1/providers/"⟩),
       Phase.done (some ⟨"registry.terraform.io", "/v1/providers/"⟩)], 1⟩ : DState).phases,
      p = Phase.done (some ⟨"registry.terraform.io", "/v1/providers/"⟩) := by
  have h := discoverServices_single_flight 2
    [DStep.enter 0, DStep.enter 1,
     DStep.complete 0 (some ⟨"registry.terraform.io", "/v1/providers/"⟩), DStep.wake 1]
    ⟨some ⟨"registry.terraform.io", "/v1/providers/"⟩, false,
      [Phase.done (some ⟨"registry.terraform.io", "/v1/providers/"⟩),
       Phase.done (some ⟨"registry.terraform.io", "/v1/providers/"⟩)], 1⟩
    rfl (by decide) (by decide) (by decide)
  obtain ⟨h1, e, he, hall⟩ := h
  injection he with he
  refine ⟨h1, ?_⟩
  rw [← he] at hall
  exact hall

end Speculum
